import Mathlib

/-!
Shallow embedding of `src/blocking_queue.h` (namespace `estd`): the counting
semaphore, the blocking double-ended queue over `std::deque`, and the
consumer iterator.

Modelling conventions for the single-threaded fragment:
* A call that would block the (only) thread forever is modelled as `none`;
  a completed call returns `some` of its result together with the updated
  state.  State is passed explicitly because the C++ objects are mutable.
* The two `std::mutex` members (`m_` of the queue, `mtx_`/`sig_` of the
  semaphore) serialize access; in a single-threaded run every lock/unlock
  pair completes without effect, so the locks carry no state here.  The one
  observable consequence of `sig_` is that `semaphore::wait` cannot return
  while `count_ == 0` (the `while (count_ == 0) sig_.lock();` loop never
  exits in a single thread), which is exactly the `none` case of `wait`.
* `data_.front()` / `data_.back()` on an empty deque is undefined behaviour
  in C++; it is modelled as `none` (no defined result).
* The C++ `int count_` is modelled as `Int` (signed-overflow-free runs).
-/

namespace BlockingQueueSpec

/-- `estd::semaphore`: the `count_` member.  The mutexes `mtx_` and `sig_`
carry no single-threaded state (see the module comment). -/
structure semaphore where
  count_ : Int
deriving DecidableEq

/-- `semaphore::signal()`: lock `mtx_`, `++count_`, unlock `sig_`.
Never blocks. -/
def semaphore.signal (s : semaphore) : semaphore :=
  { count_ := s.count_ + 1 }

/-- `semaphore::wait()`: lock `mtx_`, then `while (count_ == 0) sig_.lock();`
then `--count_`.  In a single thread the loop never exits when `count_ == 0`
(no other thread can unlock `sig_`), modelled as `none`; when `count_ ≠ 0`
the loop is skipped (also when `count_` is negative) and `count_` is
decremented. -/
def semaphore.wait (s : semaphore) : Option semaphore :=
  if s.count_ = 0 then none else some { count_ := s.count_ - 1 }

/-- `estd::blocking_queue<T>`: the deque `data_` (front = list head, back =
list last), the semaphore `e_`, and the never-written cached-size member
`size_t sz` (uninitialized in the source; its value is arbitrary). -/
structure blocking_queue (T : Type) where
  data_ : List T
  e_ : semaphore
  sz : Nat
deriving DecidableEq

/-- A freshly constructed `blocking_queue<T>`: empty deque, default
semaphore (`count_ = 0`), and an arbitrary value `sz0` for the
uninitialized member `sz`. -/
def blocking_queue.fresh (T : Type) (sz0 : Nat) : blocking_queue T :=
  { data_ := [], e_ := { count_ := 0 }, sz := sz0 }

/-- `blocking_queue::push_back(t)`: lock `m_`, `data_.push_back(t)`,
unlock `m_`, `e_.signal()`.  Never blocks. -/
def blocking_queue.push_back {T : Type} (bq : blocking_queue T) (t : T) :
    blocking_queue T :=
  { bq with data_ := bq.data_ ++ [t], e_ := bq.e_.signal }

/-- `blocking_queue::push_front(t)`: lock `m_`, `data_.push_front(t)`,
unlock `m_`, `e_.signal()`.  Never blocks. -/
def blocking_queue.push_front {T : Type} (bq : blocking_queue T) (t : T) :
    blocking_queue T :=
  { bq with data_ := t :: bq.data_, e_ := bq.e_.signal }

/-- `blocking_queue::pop_front()`: `e_.wait()` (may block, `none`), then
under `m_` read `data_.front()` and `data_.pop_front()`.  `front()` on an
empty deque is undefined behaviour, modelled as `none`. -/
def blocking_queue.pop_front {T : Type} (bq : blocking_queue T) :
    Option (T × blocking_queue T) :=
  match bq.e_.wait with
  | none => none
  | some e' =>
    match bq.data_ with
    | [] => none
    | t :: rest => some (t, { bq with data_ := rest, e_ := e' })

/-- `blocking_queue::pop_back()`: `e_.wait()` (may block, `none`), then
under `m_` read `data_.back()` and `data_.pop_back()`.  `back()` on an
empty deque is undefined behaviour, modelled as `none`. -/
def blocking_queue.pop_back {T : Type} (bq : blocking_queue T) :
    Option (T × blocking_queue T) :=
  match bq.e_.wait with
  | none => none
  | some e' =>
    match bq.data_.getLast? with
    | none => none
    | some t => some (t, { bq with data_ := bq.data_.dropLast, e_ := e' })

/-- `blocking_queue::size()`: lock `m_`, read `data_.size()`, unlock `m_`.
The member `sz` plays no role (the local `size_t sz` in the source shadows
it). -/
def blocking_queue.size {T : Type} (bq : blocking_queue T) : Nat :=
  bq.data_.length

/-- Push a whole list with `push_back`, left to right (`v1` first). -/
def blocking_queue.pushAllBack {T : Type} (bq : blocking_queue T) :
    List T → blocking_queue T
  | [] => bq
  | v :: vs => (bq.push_back v).pushAllBack vs

/-- Call `pop_front()` `n` times, collecting the returned values in call
order; `none` as soon as one call blocks or hits undefined behaviour. -/
def blocking_queue.popFrontN {T : Type} (bq : blocking_queue T) :
    Nat → Option (List T × blocking_queue T)
  | 0 => some ([], bq)
  | n + 1 =>
    match bq.pop_front with
    | none => none
    | some (t, bq') =>
      match bq'.popFrontN n with
      | none => none
      | some (ts, bq2) => some (t :: ts, bq2)

/-- Call `pop_back()` `n` times, collecting the returned values in call
order; `none` as soon as one call blocks or hits undefined behaviour. -/
def blocking_queue.popBackN {T : Type} (bq : blocking_queue T) :
    Nat → Option (List T × blocking_queue T)
  | 0 => some ([], bq)
  | n + 1 =>
    match bq.pop_back with
    | none => none
    | some (t, bq') =>
      match bq'.popBackN n with
      | none => none
      | some (ts, bq2) => some (t :: ts, bq2)

/-- `blocking_queue<T>::consumer_iterator`: the held value `value_`, the
flags `detach_` (default `false`) and `end_`.  The back-reference `bq_` is
modelled by passing the queue state explicitly to every operation. -/
structure consumer_iterator (T : Type) where
  value_ : T
  detach_ : Bool
  end_ : Bool
deriving DecidableEq

/-- `consumer_iterator::operator==`: `return end_ == it.end_;`. -/
def consumer_iterator.eq {T : Type} (a b : consumer_iterator T) : Bool :=
  a.end_ == b.end_

/-- `consumer_iterator::operator!=`: `return !(*this == it);`. -/
def consumer_iterator.ne {T : Type} (a b : consumer_iterator T) : Bool :=
  !(a.eq b)

/-- `consumer_iterator::detach(enable)`: sets `detach_ = enable`. -/
def consumer_iterator.detach {T : Type} (it : consumer_iterator T)
    (enable : Bool) : consumer_iterator T :=
  { it with detach_ := enable }

/-- `consumer_iterator::is_detached()`. -/
def consumer_iterator.is_detached {T : Type} (it : consumer_iterator T) :
    Bool :=
  it.detach_

/-- `consumer_iterator::operator++`: if `is_detached() && bq_.size() == 0`
set `end_ = true` without touching the queue; otherwise
`value_ = bq_.pop_front()` (which may block: `none`). -/
def consumer_iterator.inc {T : Type} (it : consumer_iterator T)
    (bq : blocking_queue T) : Option (consumer_iterator T × blocking_queue T) :=
  if it.is_detached && bq.size == 0 then
    some ({ it with end_ := true }, bq)
  else
    match bq.pop_front with
    | none => none
    | some (t, bq') => some ({ it with value_ := t }, bq')

/-- `consumer_iterator::operator--`: if `is_detached() && bq_.size() == 0`
set `end_ = true` without touching the queue; otherwise
`value_ = bq_.pop_back()` (which may block: `none`). -/
def consumer_iterator.dec {T : Type} (it : consumer_iterator T)
    (bq : blocking_queue T) : Option (consumer_iterator T × blocking_queue T) :=
  if it.is_detached && bq.size == 0 then
    some ({ it with end_ := true }, bq)
  else
    match bq.pop_back with
    | none => none
    | some (t, bq') => some ({ it with value_ := t }, bq')

/-- `consumer_iterator::consumer_iterator(bq, advance, end)`: `value_` is
default-constructed, `detach_ = false`, `end_ = end`; if `end` return at
once (queue untouched), otherwise perform `++*this` when `advance` and
`--*this` when not (either may block: `none`). -/
def consumer_iterator.construct {T : Type} [Inhabited T]
    (bq : blocking_queue T) (advance isEnd : Bool) :
    Option (consumer_iterator T × blocking_queue T) :=
  let it : consumer_iterator T :=
    { value_ := default, detach_ := false, end_ := isEnd }
  if isEnd then some (it, bq)
  else if advance then it.inc bq
  else it.dec bq

/-- The iterator produced by `end()`/`rend()`: `end_ = true`, `detach_`
still `false`, `value_` default-constructed. -/
def blocking_queue.endSentinel (T : Type) [Inhabited T] :
    consumer_iterator T :=
  { value_ := default, detach_ := false, end_ := true }

/-- `blocking_queue::begin()`: `consumer_iterator { *this, true, false }`. -/
def blocking_queue.begin {T : Type} [Inhabited T] (bq : blocking_queue T) :
    Option (consumer_iterator T × blocking_queue T) :=
  consumer_iterator.construct bq true false

/-- `blocking_queue::end()`: `consumer_iterator { *this, true, true }`. -/
def blocking_queue.endIt {T : Type} [Inhabited T] (bq : blocking_queue T) :
    Option (consumer_iterator T × blocking_queue T) :=
  consumer_iterator.construct bq true true

/-- `blocking_queue::rbegin()`: `consumer_iterator { *this, false, false }`. -/
def blocking_queue.rbegin {T : Type} [Inhabited T] (bq : blocking_queue T) :
    Option (consumer_iterator T × blocking_queue T) :=
  consumer_iterator.construct bq false false

/-- `blocking_queue::rend()`: `return end();`. -/
def blocking_queue.rendIt {T : Type} [Inhabited T] (bq : blocking_queue T) :
    Option (consumer_iterator T × blocking_queue T) :=
  bq.endIt

/-- `blocking_queue::begin_detached()`: `auto bgn = begin(); bgn.detach();
return bgn;`.  The `begin()` call already performs one blocking pop before
`detach()` runs. -/
def blocking_queue.begin_detached {T : Type} [Inhabited T]
    (bq : blocking_queue T) : Option (consumer_iterator T × blocking_queue T) :=
  match bq.begin with
  | none => none
  | some (bgn, bq') => some (bgn.detach true, bq')

/-- `blocking_queue::rbegin_detached()`: `auto rbgn = rbegin();
rbgn.detach(); return rbgn;`. -/
def blocking_queue.rbegin_detached {T : Type} [Inhabited T]
    (bq : blocking_queue T) : Option (consumer_iterator T × blocking_queue T) :=
  match bq.rbegin with
  | none => none
  | some (rbgn, bq') => some (rbgn.detach true, bq')

/-- The standard consumer loop
`for (auto it = ...; it != q.end(); ++it) use(*it);`
run for at most `fuel` loop tests: while the iterator does not compare
equal to the `end()` sentinel, record `*it` and advance with `operator++`.
Returns the recorded values, or `none` if an advance blocks or the fuel
runs out. -/
def traverseForward {T : Type} [Inhabited T] :
    Nat → consumer_iterator T → blocking_queue T → Option (List T)
  | 0, _, _ => none
  | fuel + 1, it, bq =>
    if it.eq (blocking_queue.endSentinel T) then some []
    else
      match it.inc bq with
      | none => none
      | some (it', bq') =>
        match traverseForward fuel it' bq' with
        | none => none
        | some vs => some (it.value_ :: vs)

/-- One complete queue operation, for runs of operation sequences. -/
inductive qop (T : Type) where
  | pushB (t : T)
  | pushF (t : T)
  | popB
  | popF
deriving DecidableEq

/-- Run one complete queue operation; a pop that blocks or hits undefined
behaviour yields `none` (the operation does not complete). -/
def blocking_queue.applyOp {T : Type} (bq : blocking_queue T) :
    qop T → Option (blocking_queue T)
  | .pushB t => some (bq.push_back t)
  | .pushF t => some (bq.push_front t)
  | .popB => (bq.pop_back).map Prod.snd
  | .popF => (bq.pop_front).map Prod.snd

/-- Run a sequence of complete queue operations. -/
def blocking_queue.runOps {T : Type} (bq : blocking_queue T) :
    List (qop T) → Option (blocking_queue T)
  | [] => some bq
  | op :: ops =>
    match bq.applyOp op with
    | none => none
    | some bq' => bq'.runOps ops

/-- A push operation (either end); pushes never block. -/
inductive pushop (T : Type) where
  | back (t : T)
  | front (t : T)
deriving DecidableEq

/-- Apply one push operation. -/
def blocking_queue.applyPush {T : Type} (bq : blocking_queue T) :
    pushop T → blocking_queue T
  | .back t => bq.push_back t
  | .front t => bq.push_front t

/-- Run a sequence of push operations (total: pushes never block). -/
def blocking_queue.runPushes {T : Type} (bq : blocking_queue T) :
    List (pushop T) → blocking_queue T
  | [] => bq
  | op :: ops => (bq.applyPush op).runPushes ops

/-- One completed semaphore operation. -/
inductive sop where
  | signal
  | wait
deriving DecidableEq

/-- Run one completed semaphore operation; a `wait` that blocks forever
yields `none`. -/
def semaphore.applySOp (s : semaphore) : sop → Option semaphore
  | .signal => some s.signal
  | .wait => s.wait

/-- Run a sequence of completed semaphore operations. -/
def semaphore.runSOps (s : semaphore) : List sop → Option semaphore
  | [] => some s
  | op :: ops =>
    match s.applySOp op with
    | none => none
    | some s' => s'.runSOps ops

/-! ## Helper lemmas -/

/-- Pushing a list `vs` with `push_back` appends `vs` to the deque and adds
`vs.length` signals to the semaphore. -/
theorem pushAllBack_eq {T : Type} :
    ∀ (vs : List T) (d : List T) (c : Int) (sz0 : Nat),
      (blocking_queue.mk d ⟨c⟩ sz0).pushAllBack vs =
        ⟨d ++ vs, ⟨c + vs.length⟩, sz0⟩ := by
  intro vs
  induction vs with
  | nil => intro d c sz0; simp [blocking_queue.pushAllBack]
  | cons v vs ih =>
    intro d c sz0
    rw [blocking_queue.pushAllBack]
    show ((blocking_queue.mk (d ++ [v]) ⟨c + 1⟩ sz0).pushAllBack vs) = _
    rw [ih]
    simp only [blocking_queue.mk.injEq, semaphore.mk.injEq]
    refine ⟨by simp, ?_, trivial⟩
    simp only [List.length_cons]
    push_cast
    ring

/-- `vs.length` calls of `pop_front()` on a queue holding `vs ++ rest` with
a semaphore count matching the deque length return exactly `vs` in order. -/
theorem popFrontN_eq {T : Type} :
    ∀ (vs rest : List T) (c : Int) (sz0 : Nat),
      c = vs.length + rest.length →
      (blocking_queue.mk (vs ++ rest) ⟨c⟩ sz0).popFrontN vs.length
        = some (vs, ⟨rest, ⟨(rest.length : Int)⟩, sz0⟩) := by
  intro vs
  induction vs with
  | nil =>
    intro rest c sz0 hc
    simp only [List.length_nil, Nat.cast_zero, zero_add] at hc
    simp [blocking_queue.popFrontN, hc]
  | cons v vs ih =>
    intro rest c sz0 hc
    simp only [List.length_cons] at hc
    have hne : ¬ c = 0 := by push_cast at hc; omega
    have hpred : c - 1 = (vs.length : Int) + rest.length := by
      push_cast at hc ⊢; omega
    rw [show (v :: vs).length = vs.length + 1 from rfl,
      blocking_queue.popFrontN]
    show (match (blocking_queue.mk (v :: (vs ++ rest)) ⟨c⟩ sz0).pop_front with
      | none => none
      | some (t, bq') =>
        match bq'.popFrontN vs.length with
        | none => none
        | some (ts, bq2) => some (t :: ts, bq2)) = _
    rw [blocking_queue.pop_front]
    simp only [semaphore.wait, if_neg hne]
    rw [ih rest (c - 1) sz0 hpred]

/-- `vs.length` calls of `pop_back()` on a queue holding `rest ++ vs` with
a semaphore count matching the deque length return exactly `vs.reverse`. -/
theorem popBackN_eq {T : Type} (rest : List T) (sz0 : Nat) :
    ∀ (vs : List T) (c : Int),
      c = rest.length + vs.length →
      (blocking_queue.mk (rest ++ vs) ⟨c⟩ sz0).popBackN vs.length
        = some (vs.reverse, ⟨rest, ⟨(rest.length : Int)⟩, sz0⟩) := by
  intro vs
  induction vs using List.reverseRecOn with
  | nil =>
    intro c hc
    simp only [List.length_nil, Nat.cast_zero, add_zero] at hc
    simp [blocking_queue.popBackN, hc]
  | append_singleton ws w ih =>
    intro c hc
    simp only [List.length_append, List.length_singleton] at hc
    have hne : ¬ c = 0 := by push_cast at hc; omega
    have hpred : c - 1 = (rest.length : Int) + ws.length := by
      push_cast at hc ⊢; omega
    rw [show (ws ++ [w]).length = ws.length + 1 from by simp,
      blocking_queue.popBackN]
    show (match (blocking_queue.mk (rest ++ (ws ++ [w])) ⟨c⟩ sz0).pop_back with
      | none => none
      | some (t, bq') =>
        match bq'.popBackN ws.length with
        | none => none
        | some (ts, bq2) => some (t :: ts, bq2)) = _
    rw [blocking_queue.pop_back]
    simp only [semaphore.wait, if_neg hne, ← List.append_assoc,
      List.getLast?_concat, List.dropLast_concat]
    rw [ih (c - 1) hpred]
    simp

/-- A detached primed iterator holding `v` over a queue holding `rest` with
a matching semaphore count, driven by the consumer loop, yields `v :: rest`
and then stops at the `end` sentinel. -/
theorem traverseForward_detached {T : Type} [Inhabited T] :
    ∀ (rest : List T) (v : T) (c : Int) (sz0 : Nat),
      c = rest.length →
      traverseForward (rest.length + 2)
        ⟨v, true, false⟩ ⟨rest, ⟨c⟩, sz0⟩ = some (v :: rest) := by
  intro rest
  induction rest with
  | nil =>
    intro v c sz0 hc
    simp only [List.length_nil, Nat.cast_zero] at hc
    subst hc
    simp [traverseForward, consumer_iterator.eq, blocking_queue.endSentinel,
      consumer_iterator.inc, consumer_iterator.is_detached,
      blocking_queue.size]
  | cons r rs ih =>
    intro v c sz0 hc
    simp only [List.length_cons] at hc
    have hne : ¬ c = 0 := by push_cast at hc; omega
    have hpred : c - 1 = (rs.length : Int) := by push_cast at hc ⊢; omega
    rw [show (r :: rs).length + 2 = (rs.length + 2) + 1 from by
      simp [List.length_cons]]
    rw [traverseForward]
    rw [if_neg (by simp [consumer_iterator.eq, blocking_queue.endSentinel])]
    rw [show (consumer_iterator.inc ⟨v, true, false⟩
        ⟨r :: rs, ⟨c⟩, sz0⟩ : Option (consumer_iterator T × blocking_queue T))
      = some (⟨r, true, false⟩, ⟨rs, ⟨c - 1⟩, sz0⟩) from by
        rw [consumer_iterator.inc]
        rw [if_neg (by simp [consumer_iterator.is_detached,
          blocking_queue.size])]
        rw [blocking_queue.pop_front]
        simp [semaphore.wait, if_neg hne]]
    rw [hpred]
    show (match traverseForward (rs.length + 2)
        (⟨r, true, false⟩ : consumer_iterator T)
        (⟨rs, ⟨(rs.length : Int)⟩, sz0⟩ : blocking_queue T) with
      | none => none
      | some vs => some (v :: vs)) = some (v :: r :: rs)
    rw [ih r (rs.length : Int) sz0 rfl]

/-- `begin_detached()` on a non-empty queue with a non-zero semaphore count
pops the head at construction, then sets `detach_`. -/
theorem begin_detached_cons {T : Type} [Inhabited T]
    (v : T) (rest : List T) (c : Int) (sz0 : Nat) (hne : c ≠ 0) :
    (blocking_queue.mk (v :: rest) ⟨c⟩ sz0).begin_detached
      = some (⟨v, true, false⟩, ⟨rest, ⟨c - 1⟩, sz0⟩) := by
  rw [blocking_queue.begin_detached, blocking_queue.begin,
    consumer_iterator.construct]
  simp only [Bool.false_eq_true, if_false, if_true]
  rw [show (consumer_iterator.inc ⟨default, false, false⟩
      ⟨v :: rest, ⟨c⟩, sz0⟩ : Option (consumer_iterator T × blocking_queue T))
    = some (⟨v, false, false⟩, ⟨rest, ⟨c - 1⟩, sz0⟩) from by
      rw [consumer_iterator.inc]
      rw [if_neg (by simp [consumer_iterator.is_detached])]
      rw [blocking_queue.pop_front]
      simp [semaphore.wait, if_neg hne]]
  rfl

/-! ## Claim theorems -/

/-- C1: for every `n` and values `v1..vn`, executing `push_back(v1)`, ...,
`push_back(vn)` on a fresh queue in a single thread and then calling
`pop_front()` `n` times returns exactly `v1..vn` in that order (and leaves
the queue as fresh). -/
theorem fifo_push_back_then_pop_front {T : Type} (vs : List T) (sz0 : Nat) :
    ((blocking_queue.fresh T sz0).pushAllBack vs).popFrontN vs.length
      = some (vs, blocking_queue.fresh T sz0) := by
  rw [blocking_queue.fresh, pushAllBack_eq]
  have h := popFrontN_eq vs [] ((0 : Int) + vs.length) sz0 (by simp)
  simpa using h

/-- C2: for every `n` and values `v1..vn`, executing `push_back(v1)`, ...,
`push_back(vn)` on a fresh queue in a single thread and then calling
`pop_back()` `n` times returns exactly `vn..v1` (reverse push order). -/
theorem lifo_push_back_then_pop_back {T : Type} (vs : List T) (sz0 : Nat) :
    ((blocking_queue.fresh T sz0).pushAllBack vs).popBackN vs.length
      = some (vs.reverse, blocking_queue.fresh T sz0) := by
  rw [blocking_queue.fresh, pushAllBack_eq]
  have h := popBackN_eq ([] : List T) sz0 vs ((0 : Int) + vs.length) (by simp)
  simpa using h

/-- C5: for every `k ≥ 1`, a queue pre-loaded with `k` elements and then
fully traversed with a detached iterator (`begin_detached`, advancing with
`operator++` until equal to `end()`, with no concurrent activity) yields
exactly the `k` pre-loaded elements (in particular, exactly `k` of them)
before reaching the end state. -/
theorem detached_drain_yields_preloaded {T : Type} [Inhabited T]
    (vs : List T) (sz0 : Nat) (hvs : vs ≠ []) :
    ∃ (it : consumer_iterator T) (bq' : blocking_queue T),
      ((blocking_queue.fresh T sz0).pushAllBack vs).begin_detached
        = some (it, bq') ∧
      traverseForward (vs.length + 1) it bq' = some vs := by
  match vs, hvs with
  | v :: rest, _ =>
    refine ⟨⟨v, true, false⟩, ⟨rest, ⟨(rest.length : Int)⟩, sz0⟩, ?_, ?_⟩
    · rw [blocking_queue.fresh, pushAllBack_eq]
      simp only [List.nil_append]
      have hne : (0 : Int) + ((v :: rest).length : Int) ≠ 0 := by
        push_cast [List.length_cons]
        omega
      rw [begin_detached_cons v rest _ sz0 hne]
      rw [show (0 : Int) + ((v :: rest).length : Int) - 1
          = (rest.length : Int) from by
        push_cast [List.length_cons]; ring]
    · have h := traverseForward_detached rest v (rest.length : Int) sz0 rfl
      rw [show (v :: rest).length + 1 = rest.length + 2 from by
        simp [List.length_cons]]
      exact h

/-- One completed queue operation preserves `count(gate) = length(sequence)`. -/
theorem applyOp_preserves_count {T : Type}
    (bq bq' : blocking_queue T) (op : qop T)
    (hinv : bq.e_.count_ = bq.data_.length)
    (h : bq.applyOp op = some bq') :
    bq'.e_.count_ = bq'.data_.length := by
  cases op with
  | pushB t =>
    rw [blocking_queue.applyOp, Option.some.injEq] at h
    subst h
    simp only [blocking_queue.push_back, semaphore.signal,
      List.length_append, List.length_singleton]
    push_cast
    omega
  | pushF t =>
    rw [blocking_queue.applyOp, Option.some.injEq] at h
    subst h
    simp only [blocking_queue.push_front, semaphore.signal,
      List.length_cons]
    push_cast
    omega
  | popF =>
    rw [blocking_queue.applyOp] at h
    rw [blocking_queue.pop_front] at h
    rw [semaphore.wait] at h
    by_cases hz : bq.e_.count_ = 0
    · rw [if_pos hz] at h
      simp at h
    · rw [if_neg hz] at h
      cases hd : bq.data_ with
      | nil => rw [hd] at h; simp at h
      | cons t rest =>
        rw [hd] at h
        simp only [Option.map_some', Option.some.injEq] at h
        subst h
        rw [hd] at hinv
        simp only [List.length_cons] at hinv
        simp only [List.length_cons]  -- no-op guard
        push_cast at hinv ⊢
        omega
  | popB =>
    rw [blocking_queue.applyOp] at h
    rw [blocking_queue.pop_back] at h
    rw [semaphore.wait] at h
    by_cases hz : bq.e_.count_ = 0
    · rw [if_pos hz] at h
      simp at h
    · rw [if_neg hz] at h
      cases hd : bq.data_.getLast? with
      | none => rw [hd] at h; simp at h
      | some t =>
        rw [hd] at h
        simp only [Option.map_some', Option.some.injEq] at h
        subst h
        simp only [List.length_dropLast]
        have hlen : bq.data_.length ≠ 0 := by
          intro h0
          rw [h0] at hinv
          exact hz (by simpa using hinv)
        omega

/-- Running completed queue operations preserves
`count(gate) = length(sequence)`. -/
theorem runOps_preserves_count {T : Type} :
    ∀ (ops : List (qop T)) (bq bq' : blocking_queue T),
      bq.e_.count_ = bq.data_.length →
      bq.runOps ops = some bq' →
      bq'.e_.count_ = bq'.data_.length := by
  intro ops
  induction ops with
  | nil =>
    intro bq bq' hinv h
    rw [blocking_queue.runOps, Option.some.injEq] at h
    subst h
    exact hinv
  | cons op ops ih =>
    intro bq bq' hinv h
    rw [blocking_queue.runOps] at h
    cases hop : bq.applyOp op with
    | none => rw [hop] at h; simp at h
    | some bq1 =>
      rw [hop] at h
      exact ih bq1 bq' (applyOp_preserves_count bq bq1 op hinv hop) h

/-- C6: starting from a fresh queue, after every sequence of complete queue
operations (`push_back`, `push_front`, `pop_back`/`pop_front` completing
only on a non-empty queue), the gate's counter equals the number of
elements currently stored in the sequence. -/
theorem gate_mirrors_sequence {T : Type}
    (ops : List (qop T)) (bq' : blocking_queue T) (sz0 : Nat)
    (h : (blocking_queue.fresh T sz0).runOps ops = some bq') :
    bq'.e_.count_ = bq'.data_.length :=
  runOps_preserves_count ops (blocking_queue.fresh T sz0) bq'
    (by simp [blocking_queue.fresh]) h

/-- Witness for C6 at a concrete run: push 1, push 2, pop front. -/
theorem gate_mirrors_sequence_witness :
    (blocking_queue.fresh Nat 0).runOps
        [qop.pushB 1, qop.pushB 2, qop.popF]
      = some (blocking_queue.mk [2] ⟨1⟩ 0) ∧
    (blocking_queue.mk [2] (semaphore.mk 1) 0).e_.count_
      = ((blocking_queue.mk [2] (semaphore.mk 1) 0).data_.length : Int) :=
  ⟨by decide,
    gate_mirrors_sequence [qop.pushB 1, qop.pushB 2, qop.popF]
      (blocking_queue.mk [2] ⟨1⟩ 0) 0 (by decide)⟩

/-- Witness for C5 at a concrete run: pre-load `[1, 2, 3]` (`k = 3`). -/
theorem detached_drain_yields_preloaded_witness :
    ([1, 2, 3] : List Nat) ≠ [] ∧
    ∃ (it : consumer_iterator Nat) (bq' : blocking_queue Nat),
      ((blocking_queue.fresh Nat 0).pushAllBack [1, 2, 3]).begin_detached
        = some (it, bq') ∧
      traverseForward (([1, 2, 3] : List Nat).length + 1) it bq'
        = some [1, 2, 3] :=
  ⟨by decide, detached_drain_yields_preloaded [1, 2, 3] 0 (by decide)⟩

/-- Pushes never block and each adds exactly one element to the deque. -/
theorem runPushes_length {T : Type} :
    ∀ (ops : List (pushop T)) (bq : blocking_queue T),
      (bq.runPushes ops).data_.length = bq.data_.length + ops.length := by
  intro ops
  induction ops with
  | nil => intro bq; simp [blocking_queue.runPushes]
  | cons op ops ih =>
    intro bq
    rw [blocking_queue.runPushes, ih]
    cases op with
    | back t =>
      simp [blocking_queue.applyPush, blocking_queue.push_back]
      omega
    | front t =>
      simp [blocking_queue.applyPush, blocking_queue.push_front]
      omega

/-- C7: `size()` returns the current length of the element sequence: after
`N` `push_back`/`push_front` calls on a fresh queue with no intervening
pops, `size() = N`; `size()` is always the live sequence's length, and the
cached member `sz` has no effect on it. -/
theorem size_is_live_sequence_length :
    (∀ (T : Type) (ops : List (pushop T)) (sz0 : Nat),
        ((blocking_queue.fresh T sz0).runPushes ops).size = ops.length) ∧
    (∀ (T : Type) (bq : blocking_queue T), bq.size = bq.data_.length) ∧
    (∀ (T : Type) (d : List T) (e : semaphore) (sz1 sz2 : Nat),
        (blocking_queue.mk d e sz1).size = (blocking_queue.mk d e sz2).size) := by
  refine ⟨?_, ?_, ?_⟩
  · intro T ops sz0
    rw [blocking_queue.size, runPushes_length]
    simp [blocking_queue.fresh]
  · intro T bq
    rfl
  · intro T d e sz1 sz2
    rfl

/-- C8 counterexample: the constructor `semaphore(int count = 0)` stores a
negative initial count unmodified, so a gate created with initial count
`-1` has a negative counter already at creation. -/
theorem semaphore_negative_at_creation :
    (semaphore.mk (-1)).count_ < 0 := by decide

/-- One completed semaphore operation preserves non-negativity of the
counter (`wait` completes only when the counter is non-zero). -/
theorem applySOp_nonneg (s s' : semaphore) (op : sop)
    (hs : 0 ≤ s.count_) (h : s.applySOp op = some s') : 0 ≤ s'.count_ := by
  cases op with
  | signal =>
    rw [semaphore.applySOp, Option.some.injEq] at h
    subst h
    rw [semaphore.signal]
    show 0 ≤ s.count_ + 1
    omega
  | wait =>
    rw [semaphore.applySOp, semaphore.wait] at h
    by_cases hz : s.count_ = 0
    · rw [if_pos hz] at h
      simp at h
    · rw [if_neg hz] at h
      rw [Option.some.injEq] at h
      subst h
      simp only
      omega

/-- C8 (amended): for every gate created with a non-negative initial count
(the default is `0`), after every sequence of completed `signal()` and
`wait()` operations the counter is `≥ 0`. -/
theorem semaphore_counter_nonneg :
    ∀ (ops : List sop) (c0 : Int) (s' : semaphore),
      0 ≤ c0 →
      (semaphore.mk c0).runSOps ops = some s' →
      0 ≤ s'.count_ := by
  have step : ∀ (ops : List sop) (s s' : semaphore),
      0 ≤ s.count_ → s.runSOps ops = some s' → 0 ≤ s'.count_ := by
    intro ops
    induction ops with
    | nil =>
      intro s s' hs h
      rw [semaphore.runSOps, Option.some.injEq] at h
      subst h
      exact hs
    | cons op ops ih =>
      intro s s' hs h
      rw [semaphore.runSOps] at h
      cases hop : s.applySOp op with
      | none => rw [hop] at h; simp at h
      | some s1 =>
        rw [hop] at h
        exact ih s1 s' (applySOp_nonneg s s1 op hs hop) h
  intro ops c0 s' h0 h
  exact step ops (semaphore.mk c0) s' h0 h

/-- Witness for the amended C8 at a concrete run: initial count `0`, then
`signal(); wait()`. -/
theorem semaphore_counter_nonneg_witness :
    (0 : Int) ≤ 0 ∧
    (semaphore.mk 0).runSOps [sop.signal, sop.wait] = some (semaphore.mk 0) ∧
    0 ≤ (semaphore.mk 0).count_ :=
  ⟨by decide, by decide,
    semaphore_counter_nonneg [sop.signal, sop.wait] 0 (semaphore.mk 0)
      (by decide) (by decide)⟩

/-- C3 counterexample: two primed (non-end) iterators holding different
values compare equal under `operator==` (`end_ == it.end_` with both flags
`false`), so "`a == b` iff both are in the end state" fails at this
concrete input. -/
theorem primed_iterators_compare_equal :
    ¬ (((consumer_iterator.mk (0 : Nat) false false).eq
          (consumer_iterator.mk 1 false false) = true) ↔
        ((consumer_iterator.mk (0 : Nat) false false).end_ = true ∧
          (consumer_iterator.mk (1 : Nat) false false).end_ = true)) := by
  decide

/-- C3 (amended): `operator==` compares only the `end_` flags: `a == b`
holds iff `a` and `b` agree on the end-state flag; in particular two primed
iterators always compare equal, and a primed iterator never equals an
end-state iterator. -/
theorem iterator_equality_is_end_flag_equality {T : Type}
    (a b : consumer_iterator T) :
    a.eq b = true ↔ a.end_ = b.end_ := by
  rw [consumer_iterator.eq]
  exact beq_iff_eq (a := a.end_) (b := b.end_)

/-- C4 counterexample: `begin_detached()` on a fresh (empty, never pushed)
queue blocks forever in the initial `pop_front()` performed by the `begin()`
constructor (before `detach()` runs), so no iterator is ever produced: the
claimed "reaches end having yielded zero elements without blocking forever"
fails on the empty queue. -/
theorem begin_detached_empty_blocks_concrete :
    (blocking_queue.fresh Nat 0).begin_detached = none := by decide

/-- C4 (amended): `begin_detached()` on a queue that is empty at call time,
and into which nothing is ever pushed, blocks forever in the initial pop at
construction (the `detach_` flag is only set afterwards): it yields no
element and never reaches the end state. -/
theorem begin_detached_empty_blocks (T : Type) [Inhabited T] (sz0 : Nat) :
    (blocking_queue.fresh T sz0).begin_detached = none := by
  rw [blocking_queue.begin_detached, blocking_queue.begin,
    consumer_iterator.construct]
  simp [consumer_iterator.inc, consumer_iterator.is_detached,
    blocking_queue.pop_front, blocking_queue.fresh, semaphore.wait]

/-- C10: `rend()` returns the same end sentinel as `end()`; constructing
`end()`/`rend()` leaves the queue's sequence and gate unchanged (no pop, no
wait), the resulting iterator is in the end state, and any end-state
iterator compares equal to any other end-state iterator regardless of
traversal direction or held value. -/
theorem rend_is_end_sentinel (T : Type) [Inhabited T]
    (bq : blocking_queue T) :
    bq.rendIt = bq.endIt ∧
    bq.endIt = some (blocking_queue.endSentinel T, bq) ∧
    (blocking_queue.endSentinel T).end_ = true ∧
    (∀ a b : consumer_iterator T, a.end_ = true → b.end_ = true →
      a.eq b = true) := by
  refine ⟨rfl, rfl, rfl, ?_⟩
  intro a b ha hb
  rw [consumer_iterator.eq, ha, hb]
  rfl

/-- Witness for C10 at concrete inputs: a forward-style and a
reverse-style end iterator (different `detach_`/`value_`) compare equal. -/
theorem rend_is_end_sentinel_witness :
    (consumer_iterator.mk (5 : Nat) false true).eq
      (consumer_iterator.mk 7 true true) = true :=
  (rend_is_end_sentinel Nat (blocking_queue.fresh Nat 0)).2.2.2
    (consumer_iterator.mk 5 false true) (consumer_iterator.mk 7 true true)
    rfl rfl

end BlockingQueueSpec
